import Mathlib

/-!
Shallow embedding of `scripts/web1_uploader/upload_to_drive.py`.

The script authenticates against a cloud drive with a service-account
credential file, and for each path in a fixed list of local files either
creates a like-named remote object in a configured folder or updates the
existing one.  The embedding models the remote store as a list of drive
objects, the remote API as deterministic state transitions recorded in an
event trace, and remote failures through an oracle (`failAt`) that makes
the n-th remote call raise.  Console output is modelled as the list of
printed lines, with the literal message strings of the script.
-/

namespace UploadToDrive

/-- A remote object held by the drive: identifier, name, parent folders,
trash flag, and its content bytes. -/
structure DriveFile where
  id : String
  name : String
  parents : List String
  trashed : Bool
  content : String
deriving DecidableEq, Repr

/-- The projection of a remote object returned by a list call
(the script requests only the fields id and name). -/
structure FileInfo where
  id : String
  name : String
deriving DecidableEq, Repr

/-- The wire response of a list call: a dictionary that may lack the
files key entirely (`results.get('files', [])` in the script). -/
structure ListResponse where
  files : Option (List FileInfo)
deriving DecidableEq, Repr

/-- One observable action of a run: parsing the credential file, building
the client, a remote list/create/update call, or skipping a missing local
file. -/
inductive Event where
  | eParseCreds
  | eAuth
  | eList (name folder : String)
  | eCreate (name : String) (parents : List String) (mimetype : String) (path : String)
  | eUpdate (fileId : String) (mimetype : String) (path : String)
  | eSkip (path : String)
deriving DecidableEq, Repr

/-- Whether an event is a remote API call (list, create or update). -/
def Event.isRemoteCall : Event → Bool
  | .eList _ _ => true
  | .eCreate _ _ _ _ => true
  | .eUpdate _ _ _ => true
  | _ => false

/-- Whether an event is a create call. -/
def Event.isCreate : Event → Bool
  | .eCreate _ _ _ _ => true
  | _ => false

/-- Whether an event is an update call. -/
def Event.isUpdate : Event → Bool
  | .eUpdate _ _ _ => true
  | _ => false

/-- The local path an event is about, when it has one. -/
def Event.pathOf : Event → Option String
  | .eCreate _ _ _ p => some p
  | .eUpdate _ _ p => some p
  | .eSkip p => some p
  | _ => none

/-- Whether an event declares the fixed tabular-text content type
(trivially true for events that carry no content type). -/
def Event.mimeOk : Event → Bool
  | .eCreate _ _ m _ => m == "text/csv"
  | .eUpdate _ m _ => m == "text/csv"
  | _ => true

/-- The ambient inputs of one process run: the folder-identifier
environment variable, whether the credential file exists, which local
paths exist and their contents, the initial remote store, the remote
id-generator seed, and the failure oracle (`failAt = some k` makes the
k-th remote call raise `apiErr`). -/
structure World where
  env_folder : Option String
  credentials_exists : Bool
  local_exists : String → Bool
  local_content : String → String
  remote : List DriveFile
  nextId : Nat
  failAt : Option Nat
  apiErr : String

/-- The evolving state of a run: the remote store, the id-generator seed,
the number of remote calls issued so far, the event trace, and the lines
printed to the console. -/
structure St where
  remote : List DriveFile
  nextId : Nat
  nCalls : Nat
  trace : List Event
  output : List String
deriving DecidableEq, Repr

/-- The result of a step: a value with the new state, or an uncaught
exception with the state at the point it was raised. -/
inductive RunOut (α : Type) where
  | ok (a : α) (st : St)
  | err (e : String) (st : St)
deriving DecidableEq, Repr

/-- The fixed relative path of the service-account credential file. -/
def CREDENTIALS_FILE : String := "credentials.json"

/-- The fixed, hard-coded ordered list of local files to synchronize. -/
def FILES_TO_UPLOAD : List String :=
  ["/opt/deploy_dashboard/data/scandata.csv",
   "/opt/deploy_dashboard/data/obj_click_log.csv"]

/-- The requested access scopes. -/
def SCOPES : List String := ["https://www.googleapis.com/auth/drive.file"]

/-- `os.path.basename`: the last slash-separated component of a path,
computed by keeping the characters after the most recent slash. -/
def basename (p : String) : String :=
  String.mk (p.data.foldl (fun acc c => if c = '/' then [] else acc ++ [c]) [])

/-- Whether a remote object satisfies the query
`name = filename and folder_id in parents and trashed = false`. -/
def matchesQuery (filename folder_id : String) (f : DriveFile) : Bool :=
  f.name == filename && f.parents.contains folder_id && !f.trashed

/-- The remote objects matching the list query, in store order (the
response order of the remote API). -/
def listMatches (remote : List DriveFile) (filename folder_id : String) : List DriveFile :=
  remote.filter (matchesQuery filename folder_id)

/-- The response of a successful list call: the matching objects,
projected to the requested fields id and name. -/
def listResponse (remote : List DriveFile) (filename folder_id : String) : ListResponse :=
  ⟨some ((listMatches remote filename folder_id).map (fun f => ⟨f.id, f.name⟩))⟩

/-- The identifier the remote system assigns to the n-th created object. -/
def freshId (n : Nat) : String := "generated-id-" ++ toString n

/-- Server-side effect of an update call that carries no metadata body:
the content of the object with the given identifier is replaced and
nothing else changes. -/
def applyUpdate (remote : List DriveFile) (fileId newContent : String) : List DriveFile :=
  remote.map (fun f => if f.id == fileId then { f with content := newContent } else f)

/-- Issue a `files().list` call. -/
def callList (w : World) (st : St) (filename folder_id : String) : RunOut ListResponse :=
  let st1 : St := { st with trace := st.trace ++ [Event.eList filename folder_id],
                            nCalls := st.nCalls + 1 }
  if w.failAt = some st.nCalls then RunOut.err w.apiErr st1
  else RunOut.ok (listResponse st.remote filename folder_id) st1

/-- Issue a `files().create` call with the given metadata and media. -/
def callCreate (w : World) (st : St) (name : String) (parents : List String)
    (mimetype path : String) : RunOut String :=
  let st1 : St := { st with trace := st.trace ++ [Event.eCreate name parents mimetype path],
                            nCalls := st.nCalls + 1 }
  if w.failAt = some st.nCalls then RunOut.err w.apiErr st1
  else
    let newFile : DriveFile :=
      ⟨freshId st.nextId, name, parents, false, w.local_content path⟩
    RunOut.ok newFile.id { st1 with remote := st.remote ++ [newFile], nextId := st.nextId + 1 }

/-- Issue a `files().update` call with media only (no metadata body). -/
def callUpdate (w : World) (st : St) (fileId mimetype path : String) : RunOut String :=
  let st1 : St := { st with trace := st.trace ++ [Event.eUpdate fileId mimetype path],
                            nCalls := st.nCalls + 1 }
  if w.failAt = some st.nCalls then RunOut.err w.apiErr st1
  else RunOut.ok fileId { st1 with remote := applyUpdate st.remote fileId (w.local_content path) }

/-- The pure response handling of `find_file_in_folder` (script lines
39-43): `files = results.get('files', []); if files: return
files[0]['id']; return None`. -/
def find_file_in_folder_resp (results : ListResponse) : Option String :=
  let files := results.files.getD []
  match files with
  | f :: _ => some f.id
  | [] => none

/-- `find_file_in_folder`: issue the list query and return the identifier
of the first result, or none. -/
def find_file_in_folder (w : World) (st : St) (filename folder_id : String) :
    RunOut (Option String) :=
  match callList w st filename folder_id with
  | .err e st1 => .err e st1
  | .ok results st1 => .ok (find_file_in_folder_resp results) st1

/-- `upload_file`: skip a missing local file, otherwise look the base
name up in the folder and update the found object or create a new one. -/
def upload_file (w : World) (folderId : String) (st : St) (filepath : String) : RunOut Unit :=
  if w.local_exists filepath = false then
    RunOut.ok () { st with output := st.output ++ ["檔案不存在，跳過: " ++ filepath],
                           trace := st.trace ++ [Event.eSkip filepath] }
  else
    let filename := basename filepath
    let st0 : St := { st with output := st.output ++ ["正在處理: " ++ filename ++ "..."] }
    match find_file_in_folder w st0 filename folderId with
    | .err e st1 => .err e st1
    | .ok (some file_id) st1 =>
      let st2 : St :=
        { st1 with output := st1.output ++ ["  -> 發現舊檔 (ID: " ++ file_id ++ ")，執行更新..."] }
      match callUpdate w st2 file_id "text/csv" filepath with
      | .err e st3 => .err e st3
      | .ok _ st3 =>
        RunOut.ok () { st3 with output := st3.output ++ ["  -> " ++ filename ++ " 更新成功！"] }
    | .ok none st1 =>
      let st2 : St := { st1 with output := st1.output ++ ["  -> 檔案不存在，執行新增..."] }
      match callCreate w st2 filename [folderId] "text/csv" filepath with
      | .err e st3 => .err e st3
      | .ok _ st3 =>
        RunOut.ok () { st3 with output := st3.output ++ ["  -> " ++ filename ++ " 上傳成功！"] }

/-- The loop of `main` over the fixed file list; an uncaught exception
aborts the remaining iterations. -/
def uploadAll (w : World) (folderId : String) (st : St) : List String → RunOut Unit
  | [] => RunOut.ok () st
  | p :: ps =>
    match upload_file w folderId st p with
    | .err e st1 => .err e st1
    | .ok _ st1 => uploadAll w folderId st1 ps

/-- How the process ends: `sys.exit(code)`, a normal return from `main`,
or an uncaught exception. -/
inductive Outcome where
  | exited (code : Nat)
  | completed
  | raised (e : String)
deriving DecidableEq, Repr

/-- The outcome of a run together with its final state. -/
structure RunResult where
  outcome : Outcome
  st : St
deriving DecidableEq, Repr

/-- The process exit code of each outcome (an uncaught exception makes
the interpreter exit 1). -/
def processExit : Outcome → Nat
  | .completed => 0
  | .exited c => c
  | .raised _ => 1

/-- Diagnostic printed when the folder-identifier variable is unset or empty. -/
def msgSetEnv : String := "錯誤: 請設定環境變數 GOOGLE_DRIVE_FOLDER_ID"

/-- Diagnostic printed when the credential file is missing; it names the path. -/
def msgMissingCreds : String := "找不到 " ++ CREDENTIALS_FILE ++ "，請確認檔案是否存在。"

/-- Progress line printed before any remote work. -/
def msgStart : String := "開始同步資料到 Google Drive..."

/-- Final completion line. -/
def msgDone : String := "所有作業完成。"

/-- The state at process start, before any call. -/
def initSt (w : World) : St := ⟨w.remote, w.nextId, 0, [], []⟩

/-- `authenticate`: check the credential file exists, then parse it and
build the client; if it is missing, print a diagnostic and exit 1 without
parsing. -/
inductive AuthResult where
  | service (st : St)
  | exitProc (code : Nat) (st : St)
deriving DecidableEq, Repr

/-- The body of `authenticate`. -/
def authenticate (w : World) (st : St) : AuthResult :=
  if w.credentials_exists then
    AuthResult.service { st with trace := st.trace ++ [Event.eParseCreds, Event.eAuth] }
  else
    AuthResult.exitProc 1 { st with output := st.output ++ [msgMissingCreds] }

/-- `main`: abort if the folder identifier is unset or empty, otherwise
authenticate and upload every file of the fixed list in order. -/
def main (w : World) : RunResult :=
  match w.env_folder with
  | none => ⟨.exited 1, { initSt w with output := [msgSetEnv] }⟩
  | some folderId =>
    if folderId = "" then ⟨.exited 1, { initSt w with output := [msgSetEnv] }⟩
    else
      let st0 : St := { initSt w with output := [msgStart] }
      match authenticate w st0 with
      | .exitProc code st1 => ⟨.exited code, st1⟩
      | .service st1 =>
        match uploadAll w folderId st1 FILES_TO_UPLOAD with
        | .err e st2 => ⟨.raised e, st2⟩
        | .ok _ st2 => ⟨.completed, { st2 with output := st2.output ++ [msgDone] }⟩

/-- The metadata skeleton of a remote object: everything except its
content. -/
def skel (f : DriveFile) : String × String × List String × Bool :=
  (f.id, f.name, f.parents, f.trashed)

/-- The number of remote calls recorded in a trace. -/
def netCount (tr : List Event) : Nat := (tr.filter Event.isRemoteCall).length

/-- The world of one run followed immediately by a second run over the
remote store the first run left behind, with local files unchanged. -/
def secondWorld (w : World) : World :=
  { w with remote := (main w).st.remote, nextId := (main w).st.nextId }

/-! ### Basic rewriting lemmas -/

theorem callList_nofail (w : World) (st : St) (n fo : String) (hf : w.failAt = none) :
    callList w st n fo =
      RunOut.ok (listResponse st.remote n fo)
        { st with trace := st.trace ++ [Event.eList n fo], nCalls := st.nCalls + 1 } := by
  simp [callList, hf]

theorem callCreate_nofail (w : World) (st : St) (name : String) (parents : List String)
    (m p : String) (hf : w.failAt = none) :
    callCreate w st name parents m p =
      RunOut.ok (freshId st.nextId)
        { remote := st.remote ++ [⟨freshId st.nextId, name, parents, false, w.local_content p⟩],
          nextId := st.nextId + 1, nCalls := st.nCalls + 1,
          trace := st.trace ++ [Event.eCreate name parents m p], output := st.output } := by
  simp [callCreate, hf, freshId]

theorem callUpdate_nofail (w : World) (st : St) (i m p : String) (hf : w.failAt = none) :
    callUpdate w st i m p =
      RunOut.ok i
        { remote := applyUpdate st.remote i (w.local_content p),
          nextId := st.nextId, nCalls := st.nCalls + 1,
          trace := st.trace ++ [Event.eUpdate i m p], output := st.output } := by
  simp [callUpdate, hf]

theorem upload_file_skip (w : World) (fid : String) (st : St) (p : String)
    (h : w.local_exists p = false) :
    upload_file w fid st p =
      RunOut.ok ()
        { st with output := st.output ++ ["檔案不存在，跳過: " ++ p],
                  trace := st.trace ++ [Event.eSkip p] } := by
  simp [upload_file, h]

theorem upload_file_create (w : World) (fid : String) (st : St) (p : String)
    (hex : w.local_exists p = true) (hf : w.failAt = none)
    (hm : listMatches st.remote (basename p) fid = []) :
    upload_file w fid st p =
      RunOut.ok ()
        { remote := st.remote ++
            [⟨freshId st.nextId, basename p, [fid], false, w.local_content p⟩],
          nextId := st.nextId + 1, nCalls := st.nCalls + 2,
          trace := st.trace ++
            [Event.eList (basename p) fid, Event.eCreate (basename p) [fid] "text/csv" p],
          output := st.output ++
            ["正在處理: " ++ basename p ++ "...", "  -> 檔案不存在，執行新增...",
             "  -> " ++ basename p ++ " 上傳成功！"] } := by
  simp [upload_file, hex, find_file_in_folder, callList_nofail, hf, callCreate_nofail,
        find_file_in_folder_resp, listResponse, hm, freshId]

theorem upload_file_update (w : World) (fid : String) (st : St) (p : String)
    (f : DriveFile) (fs : List DriveFile)
    (hex : w.local_exists p = true) (hf : w.failAt = none)
    (hm : listMatches st.remote (basename p) fid = f :: fs) :
    upload_file w fid st p =
      RunOut.ok ()
        { remote := applyUpdate st.remote f.id (w.local_content p),
          nextId := st.nextId, nCalls := st.nCalls + 2,
          trace := st.trace ++
            [Event.eList (basename p) fid, Event.eUpdate f.id "text/csv" p],
          output := st.output ++
            ["正在處理: " ++ basename p ++ "...",
             "  -> 發現舊檔 (ID: " ++ f.id ++ ")，執行更新...",
             "  -> " ++ basename p ++ " 更新成功！"] } := by
  simp [upload_file, hex, find_file_in_folder, callList_nofail, hf, callUpdate_nofail,
        find_file_in_folder_resp, listResponse, hm]

/-! ### Skeleton preservation: updates never touch metadata -/

theorem matchesQuery_of_skel_eq (n fo : String) (f g : DriveFile) (h : skel f = skel g) :
    matchesQuery n fo f = matchesQuery n fo g := by
  simp only [skel, Prod.mk.injEq] at h
  simp [matchesQuery, h.1, h.2.1, h.2.2.1, h.2.2.2]

theorem listMatches_map_skel (n fo : String) :
    ∀ l₁ l₂ : List DriveFile, l₁.map skel = l₂.map skel →
      (listMatches l₁ n fo).map skel = (listMatches l₂ n fo).map skel := by
  intro l₁
  induction l₁ with
  | nil =>
    intro l₂ h
    cases l₂ with
    | nil => rfl
    | cons g gs => simp at h
  | cons f fs ih =>
    intro l₂ h
    cases l₂ with
    | nil => simp at h
    | cons g gs =>
      simp only [List.map_cons, List.cons.injEq] at h
      have hmq := matchesQuery_of_skel_eq n fo f g h.1
      simp only [listMatches, List.filter_cons]
      rw [hmq]
      by_cases hg : matchesQuery n fo g = true
      · simp only [hg, if_pos]
        simp only [List.map_cons, List.cons.injEq]
        exact ⟨h.1, ih gs h.2⟩
      · simp only [Bool.not_eq_true] at hg
        simp only [hg]
        exact ih gs h.2

theorem applyUpdate_map_skel (l : List DriveFile) (i c : String) :
    (applyUpdate l i c).map skel = l.map skel := by
  induction l with
  | nil => rfl
  | cons f fs ih =>
    simp only [applyUpdate, List.map_cons] at ih ⊢
    by_cases h : f.id == i
    · simp only [h, if_pos, List.cons.injEq]
      exact ⟨rfl, ih⟩
    · simp only [Bool.not_eq_true] at h
      simp only [h, List.cons.injEq]
      exact ⟨rfl, ih⟩

theorem nil_iff_of_map_skel_eq (l₁ l₂ : List DriveFile) (h : l₁.map skel = l₂.map skel) :
    l₁ = [] ↔ l₂ = [] := by
  constructor
  · intro h1; subst h1; exact List.map_eq_nil_iff.mp h.symm
  · intro h2; subst h2; exact List.map_eq_nil_iff.mp h

theorem listMatches_applyUpdate_skel (l : List DriveFile) (i c n fo : String) :
    (listMatches (applyUpdate l i c) n fo).map skel = (listMatches l n fo).map skel :=
  listMatches_map_skel n fo _ _ (applyUpdate_map_skel l i c)

theorem listMatches_append (l₁ l₂ : List DriveFile) (n fo : String) :
    listMatches (l₁ ++ l₂) n fo = listMatches l₁ n fo ++ listMatches l₂ n fo := by
  simp [listMatches, List.filter_append]

theorem listMatches_ne_nil_applyUpdate (l : List DriveFile) (i c n fo : String)
    (h : listMatches l n fo ≠ []) : listMatches (applyUpdate l i c) n fo ≠ [] := by
  intro hc
  exact h ((nil_iff_of_map_skel_eq _ _ (listMatches_applyUpdate_skel l i c n fo)).mp hc)

/-! ### Stepping the upload loop -/

theorem uploadAll_nil (w : World) (fid : String) (st : St) :
    uploadAll w fid st [] = RunOut.ok () st := rfl

theorem uploadAll_cons_ok (w : World) (fid : String) (st stA : St) (p : String)
    (ps : List String) (hup : upload_file w fid st p = RunOut.ok () stA) :
    uploadAll w fid st (p :: ps) = uploadAll w fid stA ps := by
  simp [uploadAll, hup]

theorem uploadAll_cons_err (w : World) (fid : String) (st stA : St) (p e : String)
    (ps : List String) (hup : upload_file w fid st p = RunOut.err e stA) :
    uploadAll w fid st (p :: ps) = RunOut.err e stA := by
  simp [uploadAll, hup]

/-- Master characterization of a failure-free pass of the upload loop:
it succeeds, extends the trace with events of the processed tasks only,
looks up every present file and skips every missing one, and leaves
every present file with at least one matching remote object. -/
theorem uploadAll_nofail (w : World) (fid : String) (hf : w.failAt = none) :
    ∀ (ps : List String) (st : St), ∃ st' E,
      uploadAll w fid st ps = RunOut.ok () st' ∧
      st'.trace = st.trace ++ E ∧
      (∀ q ∈ ps, (w.local_exists q = true → Event.eList (basename q) fid ∈ E) ∧
                 (w.local_exists q = false → Event.eSkip q ∈ E)) ∧
      (∀ q, w.local_exists q = false → ∀ ev ∈ E, ev.pathOf = some q → ev = Event.eSkip q) ∧
      (∀ ev ∈ E, ∀ n fo, ev = Event.eList n fo →
        fo = fid ∧ ∃ q ∈ ps, w.local_exists q = true ∧ n = basename q) ∧
      (∀ n fo, listMatches st.remote n fo ≠ [] → listMatches st'.remote n fo ≠ []) ∧
      (∀ q ∈ ps, w.local_exists q = true → listMatches st'.remote (basename q) fid ≠ []) := by
  intro ps
  induction ps with
  | nil =>
    intro st
    exact ⟨st, [], rfl, by simp, by simp, by simp, by simp, fun n fo h => h, by simp⟩
  | cons p ps ih =>
    intro st
    by_cases he : w.local_exists p = true
    · rcases hm : listMatches st.remote (basename p) fid with _ | ⟨f, fs⟩
      · -- create branch
        have hup := upload_file_create w fid st p he hf hm
        set newF : DriveFile :=
          ⟨freshId st.nextId, basename p, [fid], false, w.local_content p⟩ with hnewF
        set stA : St :=
          { remote := st.remote ++ [newF],
            nextId := st.nextId + 1, nCalls := st.nCalls + 2,
            trace := st.trace ++
              [Event.eList (basename p) fid, Event.eCreate (basename p) [fid] "text/csv" p],
            output := st.output ++
              ["正在處理: " ++ basename p ++ "...", "  -> 檔案不存在，執行新增...",
               "  -> " ++ basename p ++ " 上傳成功！"] } with hstA
        obtain ⟨st', E', hrun, htr, hmem, hskip, hlst, hmono, hpres⟩ := ih stA
        refine ⟨st', Event.eList (basename p) fid ::
            Event.eCreate (basename p) [fid] "text/csv" p :: E', ?_, ?_, ?_, ?_, ?_, ?_, ?_⟩
        · rw [uploadAll_cons_ok w fid st stA p ps hup]; exact hrun
        · rw [htr]; simp [hstA]
        · intro q hq
          rcases List.mem_cons.mp hq with rfl | hq
          · exact ⟨fun _ => by simp, fun hqf => by rw [he] at hqf; simp at hqf⟩
          · exact ⟨fun hqt => by simp [(hmem q hq).1 hqt],
                   fun hqf => by simp [(hmem q hq).2 hqf]⟩
        · intro q hqf ev hev hpath
          rcases List.mem_cons.mp hev with rfl | hev
          · simp [Event.pathOf] at hpath
          · rcases List.mem_cons.mp hev with rfl | hev
            · simp only [Event.pathOf, Option.some.injEq] at hpath
              subst hpath
              rw [he] at hqf; simp at hqf
            · exact hskip q hqf ev hev hpath
        · intro ev hev n fo hevl
          rcases List.mem_cons.mp hev with rfl | hev
          · cases hevl
            exact ⟨rfl, p, by simp, he, rfl⟩
          · rcases List.mem_cons.mp hev with rfl | hev
            · cases hevl
            · obtain ⟨hfo, q, hq, hqt, hn⟩ := hlst ev hev n fo hevl
              exact ⟨hfo, q, List.mem_cons_of_mem p hq, hqt, hn⟩
        · intro n fo hne
          apply hmono
          rw [hstA]
          simp only [listMatches_append]
          intro hc
          rw [List.append_eq_nil] at hc
          exact hne hc.1
        · intro q hq hqt
          rcases List.mem_cons.mp hq with rfl | hq
          · apply hmono
            rw [hstA]
            simp only [listMatches_append]
            intro hc
            rw [List.append_eq_nil] at hc
            have : matchesQuery (basename q) fid newF = true := by
              simp [matchesQuery, hnewF]
            simp [listMatches, List.filter_cons, this] at hc
          · exact hpres q hq hqt
      · -- update branch
        have hup := upload_file_update w fid st p f fs he hf hm
        set stA : St :=
          { remote := applyUpdate st.remote f.id (w.local_content p),
            nextId := st.nextId, nCalls := st.nCalls + 2,
            trace := st.trace ++
              [Event.eList (basename p) fid, Event.eUpdate f.id "text/csv" p],
            output := st.output ++
              ["正在處理: " ++ basename p ++ "...",
               "  -> 發現舊檔 (ID: " ++ f.id ++ ")，執行更新...",
               "  -> " ++ basename p ++ " 更新成功！"] } with hstA
        obtain ⟨st', E', hrun, htr, hmem, hskip, hlst, hmono, hpres⟩ := ih stA
        refine ⟨st', Event.eList (basename p) fid ::
            Event.eUpdate f.id "text/csv" p :: E', ?_, ?_, ?_, ?_, ?_, ?_, ?_⟩
        · rw [uploadAll_cons_ok w fid st stA p ps hup]; exact hrun
        · rw [htr]; simp [hstA]
        · intro q hq
          rcases List.mem_cons.mp hq with rfl | hq
          · exact ⟨fun _ => by simp, fun hqf => by rw [he] at hqf; simp at hqf⟩
          · exact ⟨fun hqt => by simp [(hmem q hq).1 hqt],
                   fun hqf => by simp [(hmem q hq).2 hqf]⟩
        · intro q hqf ev hev hpath
          rcases List.mem_cons.mp hev with rfl | hev
          · simp [Event.pathOf] at hpath
          · rcases List.mem_cons.mp hev with rfl | hev
            · simp only [Event.pathOf, Option.some.injEq] at hpath
              subst hpath
              rw [he] at hqf; simp at hqf
            · exact hskip q hqf ev hev hpath
        · intro ev hev n fo hevl
          rcases List.mem_cons.mp hev with rfl | hev
          · cases hevl
            exact ⟨rfl, p, by simp, he, rfl⟩
          · rcases List.mem_cons.mp hev with rfl | hev
            · cases hevl
            · obtain ⟨hfo, q, hq, hqt, hn⟩ := hlst ev hev n fo hevl
              exact ⟨hfo, q, List.mem_cons_of_mem p hq, hqt, hn⟩
        · intro n fo hne
          apply hmono
          rw [hstA]
          exact listMatches_ne_nil_applyUpdate st.remote f.id (w.local_content p) n fo hne
        · intro q hq hqt
          rcases List.mem_cons.mp hq with rfl | hq
          · apply hmono
            rw [hstA]
            apply listMatches_ne_nil_applyUpdate
            rw [hm]
            simp
          · exact hpres q hq hqt
    · -- skip branch
      have he' : w.local_exists p = false := by
        cases hb : w.local_exists p
        · rfl
        · exact absurd hb he
      have hup := upload_file_skip w fid st p he'
      set stA : St :=
        { st with output := st.output ++ ["檔案不存在，跳過: " ++ p],
                  trace := st.trace ++ [Event.eSkip p] } with hstA
      obtain ⟨st', E', hrun, htr, hmem, hskip, hlst, hmono, hpres⟩ := ih stA
      refine ⟨st', Event.eSkip p :: E', ?_, ?_, ?_, ?_, ?_, ?_, ?_⟩
      · rw [uploadAll_cons_ok w fid st stA p ps hup]; exact hrun
      · rw [htr]; simp [hstA]
      · intro q hq
        rcases List.mem_cons.mp hq with rfl | hq
        · exact ⟨fun hqt => by rw [he'] at hqt; simp at hqt, fun _ => by simp⟩
        · exact ⟨fun hqt => by simp [(hmem q hq).1 hqt],
                 fun hqf => by simp [(hmem q hq).2 hqf]⟩
      · intro q hqf ev hev hpath
        rcases List.mem_cons.mp hev with rfl | hev
        · simp only [Event.pathOf, Option.some.injEq] at hpath
          subst hpath
          rfl
        · exact hskip q hqf ev hev hpath
      · intro ev hev n fo hevl
        rcases List.mem_cons.mp hev with rfl | hev
        · cases hevl
        · obtain ⟨hfo, q, hq, hqt, hn⟩ := hlst ev hev n fo hevl
          exact ⟨hfo, q, List.mem_cons_of_mem p hq, hqt, hn⟩
      · intro n fo hne
        apply hmono
        rw [hstA]
        exact hne
      · intro q hq hqt
        rcases List.mem_cons.mp hq with rfl | hq
        · rw [he'] at hqt; simp at hqt
        · exact hpres q hq hqt

/-- The state right after a successful `authenticate` in a run whose
folder identifier passed the pre-flight check. -/
def startSt (w : World) : St :=
  ⟨w.remote, w.nextId, 0, [Event.eParseCreds, Event.eAuth], [msgStart]⟩

theorem main_good (w : World) (fid : String) (he : w.env_folder = some fid)
    (hne : fid ≠ "") (hc : w.credentials_exists = true) :
    main w =
      (match uploadAll w fid (startSt w) FILES_TO_UPLOAD with
       | .err e st2 => ⟨.raised e, st2⟩
       | .ok _ st2 => ⟨.completed, { st2 with output := st2.output ++ [msgDone] }⟩) := by
  simp only [main, he, hne, if_neg, authenticate, hc, if_pos, initSt, startSt]
  rfl

/-- A pass of the upload loop over a store in which every present local
file already has a matching remote object: it only updates, never
creates, and preserves the metadata skeleton of the store. -/
theorem uploadAll_update_only (w : World) (fid : String) (hf : w.failAt = none) :
    ∀ (ps : List String) (st : St),
      (∀ q ∈ ps, w.local_exists q = true → listMatches st.remote (basename q) fid ≠ []) →
      ∃ st' E, uploadAll w fid st ps = RunOut.ok () st' ∧
        st'.trace = st.trace ++ E ∧
        (∀ ev ∈ E, ev.isCreate = false) ∧
        (∀ q ∈ ps, w.local_exists q = true → ∃ x, Event.eUpdate x "text/csv" q ∈ E) ∧
        st'.remote.map skel = st.remote.map skel := by
  intro ps
  induction ps with
  | nil =>
    intro st _
    exact ⟨st, [], rfl, by simp, by simp, by simp, rfl⟩
  | cons p ps ih =>
    intro st hpre
    by_cases he : w.local_exists p = true
    · rcases hm : listMatches st.remote (basename p) fid with _ | ⟨f, fs⟩
      · exact absurd hm (hpre p (by simp) he)
      · have hup := upload_file_update w fid st p f fs he hf hm
        set stA : St :=
          { remote := applyUpdate st.remote f.id (w.local_content p),
            nextId := st.nextId, nCalls := st.nCalls + 2,
            trace := st.trace ++
              [Event.eList (basename p) fid, Event.eUpdate f.id "text/csv" p],
            output := st.output ++
              ["正在處理: " ++ basename p ++ "...",
               "  -> 發現舊檔 (ID: " ++ f.id ++ ")，執行更新...",
               "  -> " ++ basename p ++ " 更新成功！"] } with hstA
        have hpre' : ∀ q ∈ ps, w.local_exists q = true →
            listMatches stA.remote (basename q) fid ≠ [] := by
          intro q hq hqt
          rw [hstA]
          exact listMatches_ne_nil_applyUpdate st.remote f.id (w.local_content p)
            (basename q) fid (hpre q (List.mem_cons_of_mem p hq) hqt)
        obtain ⟨st', E', hrun, htr, hnoc, hupd, hskel⟩ := ih stA hpre'
        refine ⟨st', Event.eList (basename p) fid ::
            Event.eUpdate f.id "text/csv" p :: E', ?_, ?_, ?_, ?_, ?_⟩
        · rw [uploadAll_cons_ok w fid st stA p ps hup]; exact hrun
        · rw [htr]; simp [hstA]
        · intro ev hev
          rcases List.mem_cons.mp hev with rfl | hev
          · rfl
          · rcases List.mem_cons.mp hev with rfl | hev
            · rfl
            · exact hnoc ev hev
        · intro q hq hqt
          rcases List.mem_cons.mp hq with rfl | hq
          · exact ⟨f.id, by simp⟩
          · obtain ⟨x, hx⟩ := hupd q hq hqt
            exact ⟨x, by simp [hx]⟩
        · rw [hskel, hstA]
          exact applyUpdate_map_skel st.remote f.id (w.local_content p)
    · have he' : w.local_exists p = false := by
        cases hb : w.local_exists p
        · rfl
        · exact absurd hb he
      have hup := upload_file_skip w fid st p he'
      set stA : St :=
        { st with output := st.output ++ ["檔案不存在，跳過: " ++ p],
                  trace := st.trace ++ [Event.eSkip p] } with hstA
      have hpre' : ∀ q ∈ ps, w.local_exists q = true →
          listMatches stA.remote (basename q) fid ≠ [] := by
        intro q hq hqt
        exact hpre q (List.mem_cons_of_mem p hq) hqt
      obtain ⟨st', E', hrun, htr, hnoc, hupd, hskel⟩ := ih stA hpre'
      refine ⟨st', Event.eSkip p :: E', ?_, ?_, ?_, ?_, ?_⟩
      · rw [uploadAll_cons_ok w fid st stA p ps hup]; exact hrun
      · rw [htr]; simp [hstA]
      · intro ev hev
        rcases List.mem_cons.mp hev with rfl | hev
        · rfl
        · exact hnoc ev hev
      · intro q hq hqt
        rcases List.mem_cons.mp hq with rfl | hq
        · rw [he'] at hqt; simp at hqt
        · obtain ⟨x, hx⟩ := hupd q hq hqt
          exact ⟨x, by simp [hx]⟩
      · rw [hskel]

/-! ### Runs with an arbitrary failure oracle -/

/-- The state a step leaves behind, whether it succeeded or raised. -/
def finalSt {α : Type} : RunOut α → St
  | .ok _ st => st
  | .err _ st => st

theorem netCount_append (t₁ t₂ : List Event) :
    netCount (t₁ ++ t₂) = netCount t₁ + netCount t₂ := by
  simp [netCount, List.filter_append]

theorem callList_fail (w : World) (st : St) (n fo : String)
    (h : w.failAt = some st.nCalls) :
    callList w st n fo = RunOut.err w.apiErr
      { st with trace := st.trace ++ [Event.eList n fo], nCalls := st.nCalls + 1 } := by
  simp [callList, h]

theorem callList_pass (w : World) (st : St) (n fo : String)
    (h : ¬ w.failAt = some st.nCalls) :
    callList w st n fo = RunOut.ok (listResponse st.remote n fo)
      { st with trace := st.trace ++ [Event.eList n fo], nCalls := st.nCalls + 1 } := by
  simp [callList, h]

theorem callCreate_fail (w : World) (st : St) (name : String) (parents : List String)
    (m p : String) (h : w.failAt = some st.nCalls) :
    callCreate w st name parents m p = RunOut.err w.apiErr
      { st with trace := st.trace ++ [Event.eCreate name parents m p],
                nCalls := st.nCalls + 1 } := by
  simp [callCreate, h]

theorem callUpdate_fail (w : World) (st : St) (i m p : String)
    (h : w.failAt = some st.nCalls) :
    callUpdate w st i m p = RunOut.err w.apiErr
      { st with trace := st.trace ++ [Event.eUpdate i m p], nCalls := st.nCalls + 1 } := by
  simp [callUpdate, h]

theorem callCreate_pass (w : World) (st : St) (name : String) (parents : List String)
    (m p : String) (h : ¬ w.failAt = some st.nCalls) :
    callCreate w st name parents m p =
      RunOut.ok (freshId st.nextId)
        { remote := st.remote ++ [⟨freshId st.nextId, name, parents, false, w.local_content p⟩],
          nextId := st.nextId + 1, nCalls := st.nCalls + 1,
          trace := st.trace ++ [Event.eCreate name parents m p], output := st.output } := by
  simp [callCreate, h, freshId]

theorem callUpdate_pass (w : World) (st : St) (i m p : String)
    (h : ¬ w.failAt = some st.nCalls) :
    callUpdate w st i m p =
      RunOut.ok i
        { remote := applyUpdate st.remote i (w.local_content p),
          nextId := st.nextId, nCalls := st.nCalls + 1,
          trace := st.trace ++ [Event.eUpdate i m p], output := st.output } := by
  simp [callUpdate, h]

/-- Any single `upload_file` step, under any failure oracle, appends a
block of events that all declare the fixed content type, counts its
remote calls in `nCalls`, and when it raises, it raises the remote error
and its last appended event is the failing remote call. -/
theorem upload_file_shape (w : World) (fid : String) (st : St) (p : String) :
    ∃ E, (finalSt (upload_file w fid st p)).trace = st.trace ++ E ∧
      (finalSt (upload_file w fid st p)).nCalls = st.nCalls + netCount E ∧
      (∀ ev ∈ E, ev.mimeOk = true) ∧
      (∀ e st1, upload_file w fid st p = RunOut.err e st1 →
        e = w.apiErr ∧ ∃ E0 ev, E = E0 ++ [ev] ∧ ev.isRemoteCall = true) := by
  by_cases he : w.local_exists p = true
  · by_cases h1 : w.failAt = some st.nCalls
    · -- the list call itself fails
      refine ⟨[Event.eList (basename p) fid], ?_, ?_, ?_, ?_⟩ <;>
        simp [upload_file, he, find_file_in_folder, callList_fail, h1, finalSt,
              netCount, Event.isRemoteCall, Event.mimeOk, List.filter]
      exact ⟨[], Event.eList (basename p) fid, rfl, rfl⟩
    · -- the list call passes
      have hfind : find_file_in_folder w
          { st with output := st.output ++ ["正在處理: " ++ basename p ++ "..."] }
          (basename p) fid =
          RunOut.ok (find_file_in_folder_resp (listResponse st.remote (basename p) fid))
            { st with output := st.output ++ ["正在處理: " ++ basename p ++ "..."],
                      trace := st.trace ++ [Event.eList (basename p) fid],
                      nCalls := st.nCalls + 1 } := by
        simp [find_file_in_folder, callList_pass, h1]
      rcases hr : find_file_in_folder_resp (listResponse st.remote (basename p) fid) with _ | i
      · -- create branch
        by_cases h2 : w.failAt = some (st.nCalls + 1)
        · refine ⟨[Event.eList (basename p) fid,
              Event.eCreate (basename p) [fid] "text/csv" p], ?_, ?_, ?_, ?_⟩ <;>
            simp [upload_file, he, hfind, hr, callCreate_fail, h2, finalSt,
                  netCount, Event.isRemoteCall, Event.mimeOk, List.filter]
          exact ⟨[Event.eList (basename p) fid],
            Event.eCreate (basename p) [fid] "text/csv" p, rfl, rfl⟩
        · refine ⟨[Event.eList (basename p) fid,
              Event.eCreate (basename p) [fid] "text/csv" p], ?_, ?_, ?_, ?_⟩ <;>
            simp [upload_file, he, hfind, hr, callCreate_pass, h2, finalSt,
                  netCount, Event.isRemoteCall, Event.mimeOk, List.filter]
      · -- update branch
        by_cases h2 : w.failAt = some (st.nCalls + 1)
        · refine ⟨[Event.eList (basename p) fid, Event.eUpdate i "text/csv" p], ?_, ?_, ?_, ?_⟩ <;>
            simp [upload_file, he, hfind, hr, callUpdate_fail, h2, finalSt,
                  netCount, Event.isRemoteCall, Event.mimeOk, List.filter]
          exact ⟨[Event.eList (basename p) fid], Event.eUpdate i "text/csv" p, rfl, rfl⟩
        · refine ⟨[Event.eList (basename p) fid, Event.eUpdate i "text/csv" p], ?_, ?_, ?_, ?_⟩ <;>
            simp [upload_file, he, hfind, hr, callUpdate_pass, h2, finalSt,
                  netCount, Event.isRemoteCall, Event.mimeOk, List.filter]
  · have he' : w.local_exists p = false := by
      cases hb : w.local_exists p
      · rfl
      · exact absurd hb he
    refine ⟨[Event.eSkip p], ?_, ?_, ?_, ?_⟩ <;>
      simp [upload_file_skip w fid st p he', finalSt, netCount, Event.isRemoteCall,
            Event.mimeOk, List.filter]

/-- Loop-level version of `upload_file_shape`: any pass of the loop,
under any failure oracle, appends events that all declare the fixed
content type, counts remote calls in `nCalls`, and when it raises, the
error is the remote error and the last appended event is the failing
remote call. -/
theorem uploadAll_shape (w : World) (fid : String) :
    ∀ (ps : List String) (st : St), ∃ E,
      (finalSt (uploadAll w fid st ps)).trace = st.trace ++ E ∧
      (finalSt (uploadAll w fid st ps)).nCalls = st.nCalls + netCount E ∧
      (∀ ev ∈ E, ev.mimeOk = true) ∧
      (∀ e st1, uploadAll w fid st ps = RunOut.err e st1 →
        e = w.apiErr ∧ ∃ E0 ev, E = E0 ++ [ev] ∧ ev.isRemoteCall = true) := by
  intro ps
  induction ps with
  | nil =>
    intro st
    exact ⟨[], by simp [uploadAll_nil, finalSt], by simp [uploadAll_nil, finalSt, netCount],
           by simp, by simp [uploadAll_nil]⟩
  | cons p ps ih =>
    intro st
    obtain ⟨E1, htr1, hnc1, hmm1, herr1⟩ := upload_file_shape w fid st p
    cases hup : upload_file w fid st p with
    | ok u stA =>
      cases u
      rw [hup] at htr1 hnc1
      simp only [finalSt] at htr1 hnc1
      obtain ⟨E2, htr2, hnc2, hmm2, herr2⟩ := ih stA
      rw [uploadAll_cons_ok w fid st stA p ps hup] at *
      refine ⟨E1 ++ E2, ?_, ?_, ?_, ?_⟩
      · rw [htr2, htr1, List.append_assoc]
      · rw [hnc2, hnc1, netCount_append, Nat.add_assoc]
      · intro ev hev
        rcases List.mem_append.mp hev with h | h
        · exact hmm1 ev h
        · exact hmm2 ev h
      · intro e st1 hrun
        obtain ⟨hee, E0, ev, hE, hnet⟩ := herr2 e st1 hrun
        exact ⟨hee, E1 ++ E0, ev, by rw [hE, List.append_assoc], hnet⟩
    | err e stA =>
      rw [hup] at htr1 hnc1
      simp only [finalSt] at htr1 hnc1
      rw [uploadAll_cons_err w fid st stA p e ps hup]
      refine ⟨E1, htr1, hnc1, hmm1, ?_⟩
      intro e' st1 hrun
      cases hrun
      exact herr1 e stA hup

/-- If the oracle makes remote call number `k` fail and at most `k`
calls were issued so far, one `upload_file` step either stays at or
below the failure index, or raises exactly at it. -/
theorem upload_file_faildec (w : World) (fid : String) (st : St) (p : String) (k : Nat)
    (hk : w.failAt = some k) (hle : st.nCalls ≤ k) :
    (∃ st1, upload_file w fid st p = RunOut.ok () st1 ∧ st1.nCalls ≤ k) ∨
    (∃ st1, upload_file w fid st p = RunOut.err w.apiErr st1 ∧ st1.nCalls = k + 1) := by
  by_cases he : w.local_exists p = true
  · by_cases h1 : w.failAt = some st.nCalls
    · right
      have hkc : st.nCalls = k := by
        rw [hk] at h1
        exact (Option.some_inj.mp h1).symm
      refine ⟨{ st with output := st.output ++ ["正在處理: " ++ basename p ++ "..."],
                        trace := st.trace ++ [Event.eList (basename p) fid],
                        nCalls := st.nCalls + 1 }, ?_, ?_⟩
      · simp [upload_file, he, find_file_in_folder, callList_fail, h1]
      · simp [hkc]
    · have hlt : st.nCalls < k := by
        rcases Nat.lt_or_ge st.nCalls k with h | h
        · exact h
        · exfalso
          apply h1
          rw [hk, Nat.le_antisymm hle h]
      have hfind : find_file_in_folder w
          { st with output := st.output ++ ["正在處理: " ++ basename p ++ "..."] }
          (basename p) fid =
          RunOut.ok (find_file_in_folder_resp (listResponse st.remote (basename p) fid))
            { st with output := st.output ++ ["正在處理: " ++ basename p ++ "..."],
                      trace := st.trace ++ [Event.eList (basename p) fid],
                      nCalls := st.nCalls + 1 } := by
        simp [find_file_in_folder, callList_pass, h1]
      rcases hr : find_file_in_folder_resp (listResponse st.remote (basename p) fid) with _ | i
      · by_cases h2 : w.failAt = some (st.nCalls + 1)
        · right
          have hkc : k = st.nCalls + 1 := by
            rw [hk] at h2
            exact Option.some_inj.mp h2
          refine ⟨{ st with
                      output := st.output ++
                        ["正在處理: " ++ basename p ++ "...", "  -> 檔案不存在，執行新增..."],
                      trace := st.trace ++
                        [Event.eList (basename p) fid,
                         Event.eCreate (basename p) [fid] "text/csv" p],
                      nCalls := st.nCalls + 2 }, ?_, ?_⟩
          · simp [upload_file, he, hfind, hr, callCreate_fail, h2]
          · show st.nCalls + 2 = k + 1
            omega
        · left
          refine ⟨{ remote := st.remote ++
                        [⟨freshId st.nextId, basename p, [fid], false, w.local_content p⟩],
                      nextId := st.nextId + 1, nCalls := st.nCalls + 2,
                      trace := st.trace ++
                        [Event.eList (basename p) fid,
                         Event.eCreate (basename p) [fid] "text/csv" p],
                      output := st.output ++
                        ["正在處理: " ++ basename p ++ "...", "  -> 檔案不存在，執行新增...",
                         "  -> " ++ basename p ++ " 上傳成功！"] }, ?_, ?_⟩
          · simp [upload_file, he, hfind, hr, callCreate_pass, h2, freshId]
          · show st.nCalls + 2 ≤ k
            have hne2 : st.nCalls + 1 ≠ k := by
              intro hc
              rw [hk, hc] at h2
              exact h2 rfl
            omega
      · by_cases h2 : w.failAt = some (st.nCalls + 1)
        · right
          have hkc : k = st.nCalls + 1 := by
            rw [hk] at h2
            exact Option.some_inj.mp h2
          refine ⟨{ st with
                      output := st.output ++
                        ["正在處理: " ++ basename p ++ "...",
                         "  -> 發現舊檔 (ID: " ++ i ++ ")，執行更新..."],
                      trace := st.trace ++
                        [Event.eList (basename p) fid, Event.eUpdate i "text/csv" p],
                      nCalls := st.nCalls + 2 }, ?_, ?_⟩
          · simp [upload_file, he, hfind, hr, callUpdate_fail, h2]
          · show st.nCalls + 2 = k + 1
            omega
        · left
          refine ⟨{ remote := applyUpdate st.remote i (w.local_content p),
                      nextId := st.nextId, nCalls := st.nCalls + 2,
                      trace := st.trace ++
                        [Event.eList (basename p) fid, Event.eUpdate i "text/csv" p],
                      output := st.output ++
                        ["正在處理: " ++ basename p ++ "...",
                         "  -> 發現舊檔 (ID: " ++ i ++ ")，執行更新...",
                         "  -> " ++ basename p ++ " 更新成功！"] }, ?_, ?_⟩
          · simp [upload_file, he, hfind, hr, callUpdate_pass, h2]
          · show st.nCalls + 2 ≤ k
            have hne2 : st.nCalls + 1 ≠ k := by
              intro hc
              rw [hk, hc] at h2
              exact h2 rfl
            omega
  · have he' : w.local_exists p = false := by
      cases hb : w.local_exists p
      · rfl
      · exact absurd hb he
    left
    exact ⟨_, upload_file_skip w fid st p he', hle⟩

/-- Loop-level failure dichotomy: the run either never reaches the
failing call index, or raises at it and stops. -/
theorem uploadAll_faildec (w : World) (fid : String) (k : Nat) (hk : w.failAt = some k) :
    ∀ (ps : List String) (st : St), st.nCalls ≤ k →
      (∃ st1, uploadAll w fid st ps = RunOut.ok () st1 ∧ st1.nCalls ≤ k) ∨
      (∃ st1, uploadAll w fid st ps = RunOut.err w.apiErr st1 ∧ st1.nCalls = k + 1) := by
  intro ps
  induction ps with
  | nil =>
    intro st hle
    exact Or.inl ⟨st, rfl, hle⟩
  | cons p ps ih =>
    intro st hle
    rcases upload_file_faildec w fid st p k hk hle with ⟨stA, hup, hleA⟩ | ⟨stA, hup, hA⟩
    · rw [uploadAll_cons_ok w fid st stA p ps hup]
      exact ih stA hleA
    · rw [uploadAll_cons_err w fid st stA p w.apiErr ps hup]
      exact Or.inr ⟨stA, rfl, hA⟩


/-! ### Concrete example runs -/

/-- The first hard-coded local path. -/
def pathScan : String := "/opt/deploy_dashboard/data/scandata.csv"

/-- The second hard-coded local path. -/
def pathClick : String := "/opt/deploy_dashboard/data/obj_click_log.csv"

/-- A fully healthy world: folder set, credentials present, both local
files on disk, empty remote folder, no remote failure. -/
def wEx : World :=
  { env_folder := some "F1", credentials_exists := true,
    local_exists := fun p => p == pathScan || p == pathClick,
    local_content := fun _ => "colA,colB",
    remote := [], nextId := 0, failAt := none, apiErr := "HttpError 500" }

/-- Like `wEx` but with the environment variable unset. -/
def wit3 : World := { wEx with env_folder := none }

/-- Like `wEx` but with the credential file missing. -/
def wit5 : World := { wEx with credentials_exists := false }

/-- Like `wEx` but the first remote call raises. -/
def wit6 : World := { wEx with failAt := some 0 }

/-- Like `wEx` but the second local file is missing on disk. -/
def wit4 : World := { wEx with local_exists := fun p => p == pathScan }

/-- Like `wEx` but the remote folder already holds a matching object. -/
def wit2 : World :=
  { wEx with remote := [⟨"prior-1", "scandata.csv", ["F1"], false, "old"⟩] }

/-! ### Claim theorems -/

theorem matchesQuery_eq_true (n fo : String) (f : DriveFile) :
    matchesQuery n fo f = true ↔ f.name = n ∧ fo ∈ f.parents ∧ f.trashed = false := by
  simp [matchesQuery, and_assoc]

/-- C10: the Locator is total over the response shape: a response
dictionary lacking the files key, or carrying an empty files list, makes
the response handling of `find_file_in_folder` return the not-found
signal rather than raising, so the two are indistinguishable at its
interface. -/
theorem claim_C10 (resp : ListResponse)
    (h : resp.files = none ∨ resp.files = some []) :
    find_file_in_folder_resp resp = none := by
  rcases h with h | h <;> simp [find_file_in_folder_resp, h]

theorem claim_C10_witness :
    ((⟨none⟩ : ListResponse).files = none ∨ (⟨none⟩ : ListResponse).files = some []) ∧
    find_file_in_folder_resp ⟨none⟩ = none ∧
    ((⟨some []⟩ : ListResponse).files = none ∨ (⟨some []⟩ : ListResponse).files = some []) ∧
    find_file_in_folder_resp ⟨some []⟩ = none :=
  ⟨Or.inl rfl, claim_C10 ⟨none⟩ (Or.inl rfl), Or.inr rfl, claim_C10 ⟨some []⟩ (Or.inr rfl)⟩

/-- C2: for every file name and folder identifier, the Locator returns
the identifier of the first object of the remote response order when one
or more objects match, the not-found signal when zero match, and any
identifier it returns belongs to an object of the store whose name is
exactly the queried name, whose parents include the folder, and which is
not trashed. -/
theorem claim_C2 (w : World) (st : St) (n fo : String) (hf : w.failAt = none) :
    ∃ r st1, find_file_in_folder w st n fo = RunOut.ok r st1 ∧
      r = (listMatches st.remote n fo).head?.map DriveFile.id ∧
      (r = none ↔ listMatches st.remote n fo = []) ∧
      (∀ x, r = some x → ∃ f ∈ st.remote, f.name = n ∧ fo ∈ f.parents ∧
        f.trashed = false ∧ f.id = x) := by
  refine ⟨find_file_in_folder_resp (listResponse st.remote n fo),
    { st with trace := st.trace ++ [Event.eList n fo], nCalls := st.nCalls + 1 },
    by simp [find_file_in_folder, callList_nofail, hf], ?_, ?_, ?_⟩
  · rcases hm : listMatches st.remote n fo with _ | ⟨f, fs⟩ <;>
      simp [find_file_in_folder_resp, listResponse, hm]
  · rcases hm : listMatches st.remote n fo with _ | ⟨f, fs⟩ <;>
      simp [find_file_in_folder_resp, listResponse, hm]
  · intro x hx
    simp only [find_file_in_folder_resp, listResponse] at hx
    rcases hm : listMatches st.remote n fo with _ | ⟨f, fs⟩
    · rw [hm] at hx
      simp at hx
    · rw [hm] at hx
      simp at hx
      have hfm : f ∈ List.filter (matchesQuery n fo) st.remote := by
        rw [show List.filter (matchesQuery n fo) st.remote = listMatches st.remote n fo from rfl,
          hm]
        exact List.mem_cons_self f fs
      obtain ⟨hmem, hq⟩ := List.mem_filter.mp hfm
      obtain ⟨h1, h2, h3⟩ := (matchesQuery_eq_true n fo f).mp hq
      exact ⟨f, hmem, h1, h2, h3, hx⟩

theorem claim_C2_witness :
    wit2.failAt = none ∧
    (∃ r st1, find_file_in_folder wit2 (initSt wit2) "scandata.csv" "F1" = RunOut.ok r st1 ∧
      r = (listMatches (initSt wit2).remote "scandata.csv" "F1").head?.map DriveFile.id ∧
      (r = none ↔ listMatches (initSt wit2).remote "scandata.csv" "F1" = []) ∧
      (∀ x, r = some x → ∃ f ∈ (initSt wit2).remote, f.name = "scandata.csv" ∧
        "F1" ∈ f.parents ∧ f.trashed = false ∧ f.id = x)) :=
  ⟨rfl, claim_C2 wit2 (initSt wit2) "scandata.csv" "F1" rfl⟩

/-- C3: when the folder-identifier environment variable is unset or
empty, the run exits 1 before any network call: the trace is empty (no
authenticate, list, create or update was invoked) and the diagnostic
line instructing the operator to set the variable is the whole console
output. -/
theorem claim_C3 (w : World) (h : w.env_folder = none ∨ w.env_folder = some "") :
    (main w).outcome = Outcome.exited 1 ∧ processExit (main w).outcome = 1 ∧
    (main w).st.trace = [] ∧ netCount (main w).st.trace = 0 ∧
    (main w).st.output = [msgSetEnv] := by
  rcases h with h | h <;> simp [main, h, initSt, processExit, netCount]

theorem claim_C3_witness :
    (wit3.env_folder = none ∨ wit3.env_folder = some "") ∧
    ((main wit3).outcome = Outcome.exited 1 ∧ processExit (main wit3).outcome = 1 ∧
    (main wit3).st.trace = [] ∧ netCount (main wit3).st.trace = 0 ∧
    (main wit3).st.output = [msgSetEnv]) :=
  ⟨Or.inl rfl, claim_C3 wit3 (Or.inl rfl)⟩

/-- C5: when the credential file is absent, the run exits 1 with a
diagnostic naming the missing path, the credential-existence check
happens before any parse attempt (no parse event is traced), and no file
task is processed (the trace is empty). -/
theorem claim_C5 (w : World) (fid : String) (he : w.env_folder = some fid)
    (hne : fid ≠ "") (hc : w.credentials_exists = false) :
    (main w).outcome = Outcome.exited 1 ∧ processExit (main w).outcome = 1 ∧
    (main w).st.trace = [] ∧ Event.eParseCreds ∉ (main w).st.trace ∧
    (main w).st.output = [msgStart, "找不到 " ++ CREDENTIALS_FILE ++ "，請確認檔案是否存在。"] := by
  simp [main, he, hne, authenticate, hc, initSt, processExit, msgMissingCreds]

theorem claim_C5_witness :
    wit5.env_folder = some "F1" ∧ "F1" ≠ "" ∧ wit5.credentials_exists = false ∧
    ((main wit5).outcome = Outcome.exited 1 ∧ processExit (main wit5).outcome = 1 ∧
    (main wit5).st.trace = [] ∧ Event.eParseCreds ∉ (main wit5).st.trace ∧
    (main wit5).st.output =
      [msgStart, "找不到 " ++ CREDENTIALS_FILE ++ "，請確認檔案是否存在。"]) :=
  ⟨rfl, by decide, rfl, claim_C5 wit5 "F1" rfl (by decide) rfl⟩

/-- C1: for every file task whose local file exists, the Uploader issues
exactly one remote write: when the Locator returned identifier `x` it
issues exactly one update targeting `x` and no create, and when the
Locator returned not-found it issues exactly one create with name the
base name of the local path and parent the configured folder, and no
update. -/
theorem claim_C1 (w : World) (fid : String) (st : St) (p : String)
    (hex : w.local_exists p = true) (hf : w.failAt = none) :
    ∃ st1 E, upload_file w fid st p = RunOut.ok () st1 ∧ st1.trace = st.trace ++ E ∧
      (∀ x, find_file_in_folder_resp (listResponse st.remote (basename p) fid) = some x →
        E.filter Event.isUpdate = [Event.eUpdate x "text/csv" p] ∧
        E.filter Event.isCreate = []) ∧
      (find_file_in_folder_resp (listResponse st.remote (basename p) fid) = none →
        E.filter Event.isCreate = [Event.eCreate (basename p) [fid] "text/csv" p] ∧
        E.filter Event.isUpdate = []) := by
  rcases hm : listMatches st.remote (basename p) fid with _ | ⟨f, fs⟩
  · refine ⟨_, [Event.eList (basename p) fid, Event.eCreate (basename p) [fid] "text/csv" p],
      upload_file_create w fid st p hex hf hm, by simp, ?_, ?_⟩
    · intro x hx
      rw [show listResponse st.remote (basename p) fid =
        ⟨some ((listMatches st.remote (basename p) fid).map (fun f => ⟨f.id, f.name⟩))⟩
        from rfl, hm] at hx
      simp [find_file_in_folder_resp] at hx
    · intro _
      constructor <;> simp [List.filter, Event.isCreate, Event.isUpdate]
  · refine ⟨_, [Event.eList (basename p) fid, Event.eUpdate f.id "text/csv" p],
      upload_file_update w fid st p f fs hex hf hm, by simp, ?_, ?_⟩
    · intro x hx
      rw [show listResponse st.remote (basename p) fid =
        ⟨some ((listMatches st.remote (basename p) fid).map (fun f => ⟨f.id, f.name⟩))⟩
        from rfl, hm] at hx
      simp [find_file_in_folder_resp] at hx
      subst hx
      constructor <;> simp [List.filter, Event.isCreate, Event.isUpdate]
    · intro hx
      rw [show listResponse st.remote (basename p) fid =
        ⟨some ((listMatches st.remote (basename p) fid).map (fun f => ⟨f.id, f.name⟩))⟩
        from rfl, hm] at hx
      simp [find_file_in_folder_resp] at hx

theorem claim_C1_witness :
    wEx.local_exists pathScan = true ∧ wEx.failAt = none ∧
    (∃ st1 E, upload_file wEx "F1" (initSt wEx) pathScan = RunOut.ok () st1 ∧
      st1.trace = (initSt wEx).trace ++ E ∧
      (∀ x, find_file_in_folder_resp
          (listResponse (initSt wEx).remote (basename pathScan) "F1") = some x →
        E.filter Event.isUpdate = [Event.eUpdate x "text/csv" pathScan] ∧
        E.filter Event.isCreate = []) ∧
      (find_file_in_folder_resp
          (listResponse (initSt wEx).remote (basename pathScan) "F1") = none →
        E.filter Event.isCreate =
          [Event.eCreate (basename pathScan) ["F1"] "text/csv" pathScan] ∧
        E.filter Event.isUpdate = [])) :=
  ⟨rfl, rfl, claim_C1 wEx "F1" (initSt wEx) pathScan rfl rfl⟩

/-- C8: a file task taking the update branch changes only the remote
object's content: the update call carries no metadata, so every object's
identifier, name, parent folders and trash flag — the metadata skeleton
of the whole store — are unchanged. -/
theorem claim_C8 (w : World) (fid : String) (st : St) (p : String) (x : String)
    (hex : w.local_exists p = true) (hf : w.failAt = none)
    (hloc : find_file_in_folder_resp (listResponse st.remote (basename p) fid) = some x) :
    ∃ st1, upload_file w fid st p = RunOut.ok () st1 ∧
      st1.remote.map skel = st.remote.map skel := by
  rcases hm : listMatches st.remote (basename p) fid with _ | ⟨f, fs⟩
  · rw [show listResponse st.remote (basename p) fid =
      ⟨some ((listMatches st.remote (basename p) fid).map (fun f => ⟨f.id, f.name⟩))⟩
      from rfl, hm] at hloc
    simp [find_file_in_folder_resp] at hloc
  · exact ⟨_, upload_file_update w fid st p f fs hex hf hm,
      applyUpdate_map_skel st.remote f.id (w.local_content p)⟩

theorem claim_C8_witness :
    wit2.local_exists pathScan = true ∧ wit2.failAt = none ∧
    find_file_in_folder_resp
      (listResponse (initSt wit2).remote (basename pathScan) "F1") = some "prior-1" ∧
    (∃ st1, upload_file wit2 "F1" (initSt wit2) pathScan = RunOut.ok () st1 ∧
      st1.remote.map skel = (initSt wit2).remote.map skel) :=
  ⟨rfl, rfl, rfl, claim_C8 wit2 "F1" (initSt wit2) pathScan "prior-1" rfl rfl rfl⟩

/-- C9: on every run, every create and every update call in the trace
declares the fixed tabular-text content type, whatever the世界's local
contents, paths or failures are — no per-file content-type detection
occurs. -/
theorem claim_C9 (w : World) : ((main w).st.trace.all Event.mimeOk) = true := by
  rcases he : w.env_folder with _ | fid
  · simp [main, he, initSt]
  · by_cases hne : fid = ""
    · simp [main, he, hne, initSt]
    · by_cases hc : w.credentials_exists = true
      · rw [main_good w fid he hne hc]
        obtain ⟨E, htr, _, hmm, _⟩ := uploadAll_shape w fid FILES_TO_UPLOAD (startSt w)
        cases hrun : uploadAll w fid (startSt w) FILES_TO_UPLOAD with
        | ok u st2 =>
          cases u
          rw [hrun] at htr
          simp only [finalSt] at htr
          simp only [hrun]
          rw [List.all_eq_true]
          intro ev hev
          rw [show ({ st2 with output := st2.output ++ [msgDone] } : St).trace = st2.trace
            from rfl, htr] at hev
          rcases List.mem_append.mp hev with h | h
          · rcases List.mem_cons.mp h with rfl | h
            · rfl
            · rcases List.mem_cons.mp h with rfl | h
              · rfl
              · simp at h
          · exact hmm ev h
        | err e st2 =>
          rw [hrun] at htr
          simp only [finalSt] at htr
          simp only [hrun]
          rw [List.all_eq_true]
          intro ev hev
          rw [show (RunResult.mk (Outcome.raised e) st2).st.trace = st2.trace from rfl,
            htr] at hev
          rcases List.mem_append.mp hev with h | h
          · rcases List.mem_cons.mp h with rfl | h
            · rfl
            · rcases List.mem_cons.mp h with rfl | h
              · rfl
              · simp at h
          · exact hmm ev h
      · have hc' : w.credentials_exists = false := by
          cases hb : w.credentials_exists
          · rfl
          · exact absurd hb hc
        simp [main, he, hne, authenticate, hc', initSt]

/-- C4: a file task whose local path is missing is skipped: no create,
update or Locator lookup happens for it, every other task of the list is
still processed, and the run still completes with exit code zero. -/
theorem claim_C4 (w : World) (fid : String) (p : String)
    (he : w.env_folder = some fid) (hne : fid ≠ "") (hc : w.credentials_exists = true)
    (hf : w.failAt = none) (hp : p ∈ FILES_TO_UPLOAD) (hmiss : w.local_exists p = false) :
    (main w).outcome = Outcome.completed ∧ processExit (main w).outcome = 0 ∧
    Event.eSkip p ∈ (main w).st.trace ∧
    (∀ ev ∈ (main w).st.trace, ev.pathOf = some p → ev = Event.eSkip p) ∧
    Event.eList (basename p) fid ∉ (main w).st.trace ∧
    (∀ q ∈ FILES_TO_UPLOAD,
      (w.local_exists q = true → Event.eList (basename q) fid ∈ (main w).st.trace) ∧
      (w.local_exists q = false → Event.eSkip q ∈ (main w).st.trace)) := by
  obtain ⟨st1, E, hrun, htr, hmem, hskip, hlst, _, _⟩ :=
    uploadAll_nofail w fid hf FILES_TO_UPLOAD (startSt w)
  have hmain : main w = ⟨Outcome.completed, { st1 with output := st1.output ++ [msgDone] }⟩ := by
    rw [main_good w fid he hne hc, hrun]
  rw [hmain]
  have htr' : ({ st1 with output := st1.output ++ [msgDone] } : St).trace =
      (startSt w).trace ++ E := htr
  refine ⟨rfl, rfl, ?_, ?_, ?_, ?_⟩
  · rw [show (RunResult.mk Outcome.completed
      { st1 with output := st1.output ++ [msgDone] }).st.trace = st1.trace from rfl, htr]
    exact List.mem_append_right _ ((hmem p hp).2 hmiss)
  · intro ev hev hpath
    rw [show (RunResult.mk Outcome.completed
      { st1 with output := st1.output ++ [msgDone] }).st.trace = st1.trace from rfl, htr] at hev
    rcases List.mem_append.mp hev with h | h
    · rcases List.mem_cons.mp h with rfl | h
      · simp [Event.pathOf] at hpath
      · rcases List.mem_cons.mp h with rfl | h
        · simp [Event.pathOf] at hpath
        · simp at h
    · exact hskip p hmiss ev h hpath
  · intro hcon
    rw [show (RunResult.mk Outcome.completed
      { st1 with output := st1.output ++ [msgDone] }).st.trace = st1.trace from rfl, htr] at hcon
    rcases List.mem_append.mp hcon with h | h
    · rcases List.mem_cons.mp h with h | h
      · simp at h
      · rcases List.mem_cons.mp h with h | h
        · simp at h
        · simp at h
    · obtain ⟨_, q, hq, hqt, hbn⟩ := hlst _ h (basename p) fid rfl
      have hp2 : p = "/opt/deploy_dashboard/data/scandata.csv" ∨
          p = "/opt/deploy_dashboard/data/obj_click_log.csv" := by
        simpa [FILES_TO_UPLOAD] using hp
      have hq2 : q = "/opt/deploy_dashboard/data/scandata.csv" ∨
          q = "/opt/deploy_dashboard/data/obj_click_log.csv" := by
        simpa [FILES_TO_UPLOAD] using hq
      rcases hp2 with rfl | rfl <;> rcases hq2 with rfl | rfl
      · rw [hmiss] at hqt; simp at hqt
      · exact absurd hbn (by decide)
      · exact absurd hbn (by decide)
      · rw [hmiss] at hqt; simp at hqt
  · intro q hq
    constructor
    · intro hqt
      rw [show (RunResult.mk Outcome.completed
        { st1 with output := st1.output ++ [msgDone] }).st.trace = st1.trace from rfl, htr]
      exact List.mem_append_right _ ((hmem q hq).1 hqt)
    · intro hqf
      rw [show (RunResult.mk Outcome.completed
        { st1 with output := st1.output ++ [msgDone] }).st.trace = st1.trace from rfl, htr]
      exact List.mem_append_right _ ((hmem q hq).2 hqf)

theorem claim_C4_witness :
    wit4.env_folder = some "F1" ∧ ("F1" : String) ≠ "" ∧ wit4.credentials_exists = true ∧
    wit4.failAt = none ∧ pathClick ∈ FILES_TO_UPLOAD ∧ wit4.local_exists pathClick = false ∧
    ((main wit4).outcome = Outcome.completed ∧ processExit (main wit4).outcome = 0 ∧
    Event.eSkip pathClick ∈ (main wit4).st.trace ∧
    (∀ ev ∈ (main wit4).st.trace, ev.pathOf = some pathClick → ev = Event.eSkip pathClick) ∧
    Event.eList (basename pathClick) "F1" ∉ (main wit4).st.trace ∧
    (∀ q ∈ FILES_TO_UPLOAD,
      (wit4.local_exists q = true → Event.eList (basename q) "F1" ∈ (main wit4).st.trace) ∧
      (wit4.local_exists q = false → Event.eSkip q ∈ (main wit4).st.trace))) :=
  ⟨rfl, by decide, rfl, rfl, by decide, by decide,
   claim_C4 wit4 "F1" pathClick rfl (by decide) rfl rfl (by decide) (by decide)⟩

/-- C6: a remote API error at any list, create or update call propagates
unrecovered: if the run ever reaches the failing call index it ends as
`raised` with the remote error, exits non-zero, issues no further remote
call (the failing call is the last issued one and the last traced
event), and processes nothing afterwards; otherwise the run completes
below the failure index. -/
theorem claim_C6 (w : World) (fid : String) (k : Nat)
    (he : w.env_folder = some fid) (hne : fid ≠ "") (hc : w.credentials_exists = true)
    (hk : w.failAt = some k) :
    ((main w).outcome = Outcome.completed ∧ (main w).st.nCalls ≤ k) ∨
    ((main w).outcome = Outcome.raised w.apiErr ∧ processExit (main w).outcome = 1 ∧
     (main w).st.nCalls = k + 1 ∧ netCount (main w).st.trace = k + 1 ∧
     ∃ tr0 ev, (main w).st.trace = tr0 ++ [ev] ∧ ev.isRemoteCall = true) := by
  have hle : (startSt w).nCalls ≤ k := Nat.zero_le k
  rcases uploadAll_faildec w fid k hk FILES_TO_UPLOAD (startSt w) hle with
    ⟨st1, hrun, hlek⟩ | ⟨st1, hrun, hk1⟩
  · left
    have hmain : main w = ⟨Outcome.completed, { st1 with output := st1.output ++ [msgDone] }⟩ := by
      rw [main_good w fid he hne hc, hrun]
    rw [hmain]
    exact ⟨rfl, hlek⟩
  · right
    have hmain : main w = ⟨Outcome.raised w.apiErr, st1⟩ := by
      rw [main_good w fid he hne hc, hrun]
    obtain ⟨E, htr, hnc, _, herr⟩ := uploadAll_shape w fid FILES_TO_UPLOAD (startSt w)
    rw [hrun] at htr hnc
    simp only [finalSt] at htr hnc
    obtain ⟨_, E0, ev, hE, hnet⟩ := herr w.apiErr st1 hrun
    rw [hmain]
    refine ⟨rfl, rfl, hk1, ?_, ?_⟩
    · show netCount st1.trace = k + 1
      rw [htr, netCount_append]
      have h0 : netCount (startSt w).trace = 0 := rfl
      have h1 : (startSt w).nCalls = 0 := rfl
      rw [h0]
      rw [h1] at hnc
      omega
    · show ∃ tr0 ev, st1.trace = tr0 ++ [ev] ∧ ev.isRemoteCall = true
      refine ⟨(startSt w).trace ++ E0, ev, ?_, hnet⟩
      rw [htr, hE, List.append_assoc]

theorem claim_C6_witness :
    wit6.env_folder = some "F1" ∧ ("F1" : String) ≠ "" ∧ wit6.credentials_exists = true ∧
    wit6.failAt = some 0 ∧
    (((main wit6).outcome = Outcome.completed ∧ (main wit6).st.nCalls ≤ 0) ∨
    ((main wit6).outcome = Outcome.raised wit6.apiErr ∧ processExit (main wit6).outcome = 1 ∧
     (main wit6).st.nCalls = 0 + 1 ∧ netCount (main wit6).st.trace = 0 + 1 ∧
     ∃ tr0 ev, (main wit6).st.trace = tr0 ++ [ev] ∧ ev.isRemoteCall = true)) :=
  ⟨rfl, by decide, rfl, rfl, claim_C6 wit6 "F1" 0 rfl (by decide) rfl rfl⟩

/-- C7: running the sync a second time over the remote store the first
run left, with local content unchanged, performs an update (never a
create) for each existing local file, and the identifiers (indeed the
whole metadata skeleton) of the remote objects are the same after the
second run as after the first. -/
theorem claim_C7 (w : World) (fid : String)
    (he : w.env_folder = some fid) (hne : fid ≠ "") (hc : w.credentials_exists = true)
    (hf : w.failAt = none) :
    (∀ ev ∈ (main (secondWorld w)).st.trace, ev.isCreate = false) ∧
    (∀ p ∈ FILES_TO_UPLOAD, w.local_exists p = true →
      ∃ x, Event.eUpdate x "text/csv" p ∈ (main (secondWorld w)).st.trace) ∧
    (main (secondWorld w)).st.remote.map skel = (main w).st.remote.map skel := by
  obtain ⟨st1, E1, hrun1, htr1, _, _, _, _, hpres1⟩ :=
    uploadAll_nofail w fid hf FILES_TO_UPLOAD (startSt w)
  have hmain1 : main w = ⟨Outcome.completed, { st1 with output := st1.output ++ [msgDone] }⟩ := by
    rw [main_good w fid he hne hc, hrun1]
  have he2 : (secondWorld w).env_folder = some fid := he
  have hc2 : (secondWorld w).credentials_exists = true := hc
  have hf2 : (secondWorld w).failAt = none := hf
  have hrem2 : (secondWorld w).remote = st1.remote := by
    rw [show (secondWorld w).remote = (main w).st.remote from rfl, hmain1]
  have hpre : ∀ q ∈ FILES_TO_UPLOAD, (secondWorld w).local_exists q = true →
      listMatches (startSt (secondWorld w)).remote (basename q) fid ≠ [] := by
    intro q hq hqt
    rw [show (startSt (secondWorld w)).remote = (secondWorld w).remote from rfl, hrem2]
    exact hpres1 q hq hqt
  obtain ⟨st2, E2, hrun2, htr2, hnoc2, hupd2, hskel2⟩ :=
    uploadAll_update_only (secondWorld w) fid hf2 FILES_TO_UPLOAD (startSt (secondWorld w)) hpre
  have hmain2 : main (secondWorld w) =
      ⟨Outcome.completed, { st2 with output := st2.output ++ [msgDone] }⟩ := by
    rw [main_good (secondWorld w) fid he2 hne hc2, hrun2]
  rw [hmain2, hmain1]
  refine ⟨?_, ?_, ?_⟩
  · intro ev hev
    rw [show (RunResult.mk Outcome.completed
      { st2 with output := st2.output ++ [msgDone] }).st.trace = st2.trace from rfl,
      htr2] at hev
    rcases List.mem_append.mp hev with h | h
    · rcases List.mem_cons.mp h with rfl | h
      · rfl
      · rcases List.mem_cons.mp h with rfl | h
        · rfl
        · simp at h
    · exact hnoc2 ev h
  · intro p hp hpt
    obtain ⟨x, hx⟩ := hupd2 p hp hpt
    refine ⟨x, ?_⟩
    rw [show (RunResult.mk Outcome.completed
      { st2 with output := st2.output ++ [msgDone] }).st.trace = st2.trace from rfl, htr2]
    exact List.mem_append_right _ hx
  · show st2.remote.map skel = st1.remote.map skel
    rw [hskel2, show (startSt (secondWorld w)).remote = (secondWorld w).remote from rfl, hrem2]

theorem claim_C7_witness :
    wEx.env_folder = some "F1" ∧ ("F1" : String) ≠ "" ∧ wEx.credentials_exists = true ∧
    wEx.failAt = none ∧
    ((∀ ev ∈ (main (secondWorld wEx)).st.trace, ev.isCreate = false) ∧
    (∀ p ∈ FILES_TO_UPLOAD, wEx.local_exists p = true →
      ∃ x, Event.eUpdate x "text/csv" p ∈ (main (secondWorld wEx)).st.trace) ∧
    (main (secondWorld wEx)).st.remote.map skel = (main wEx).st.remote.map skel) :=
  ⟨rfl, by decide, rfl, rfl, claim_C7 wEx "F1" rfl (by decide) rfl rfl⟩

end UploadToDrive
